import Mathlib

/-!
Verification development for the ruuvi-listener / ruuvi-gateway system.

Bytes are modelled as `List Nat` (each element a byte value `< 256`);
machine integers are modelled as `Nat` (unsigned) or `Int` (signed), with
explicit `% 2 ^ 64` where the Rust code performs wrapping `u64` arithmetic.
All definitions are translated from the Rust sources; definitions that model
code absent from the sources are marked `Modelled from the spec:` in their
doc comment.
-/

set_option autoImplicit false

namespace Ruuvi

/-- `u16::from_be_bytes([hi, lo])`. -/
def be16 (hi lo : Nat) : Nat := hi * 256 + lo

/-- Interpret a 16-bit value as a two's-complement signed integer
(the result of `i16::from_be_bytes`). -/
def toI16 (n : Nat) : Int := if n < 32768 then (n : Int) else (n : Int) - 65536

/-- `i16::from_be_bytes([hi, lo])`. -/
def beI16 (hi lo : Nat) : Int := toI16 (be16 hi lo)

/-- Interpret a byte as a two's-complement `i8`. -/
def toI8 (n : Nat) : Int := if n < 128 then (n : Int) else (n : Int) - 256

namespace Listener

/-- `ParseError` from `ruuvi-listener/src/schema.rs`. -/
inductive ParseError where
  | TooShort : ParseError
  | UnknownFormat : Nat → ParseError
deriving DecidableEq, Repr

/-- `RuuviRawV2` from `ruuvi-listener/src/schema.rs` (the listener's local
struct: no `rssi` field). `mac` is the 6-byte MAC address. -/
structure RuuviRawV2 where
  temp : Int
  humidity : Nat
  pressure : Nat
  acc_x : Int
  acc_y : Int
  acc_z : Int
  power_info : Nat
  movement_counter : Nat
  measurement_seq : Nat
  mac : List Nat
  timestamp : Option Nat
deriving DecidableEq, Repr

/-- `RuuviRawE1` from `ruuvi-listener/src/schema.rs`. -/
structure RuuviRawE1 where
  temp : Int
  humidity : Nat
  pressure : Nat
  pm1_0 : Nat
  pm2_5 : Nat
  pm4_0 : Nat
  pm10_0 : Nat
  co2 : Nat
  voc_index : Nat
  nox_index : Nat
  luminosity : Nat
  measurement_seq : Nat
  flags : Nat
  mac : List Nat
  timestamp : Option Nat
deriving DecidableEq, Repr

/-- `RuuviRaw` from `ruuvi-listener/src/schema.rs`. -/
inductive RuuviRaw where
  | V2 : RuuviRawV2 → RuuviRaw
  | E1 : RuuviRawE1 → RuuviRaw
deriving DecidableEq, Repr

/-- `RuuviRaw::measurement_seq` (the V2 16-bit counter widened to `u32`). -/
def RuuviRaw.measurement_seq : RuuviRaw → Nat
  | .E1 e1 => e1.measurement_seq
  | .V2 v2 => v2.measurement_seq

/-- `RuuviRaw::mac`. -/
def RuuviRaw.mac : RuuviRaw → List Nat
  | .E1 e1 => e1.mac
  | .V2 v2 => v2.mac

/-- `RuuviRaw::set_timestamp`. -/
def RuuviRaw.set_timestamp : RuuviRaw → Option Nat → RuuviRaw
  | .E1 e1, ts => .E1 { e1 with timestamp := ts }
  | .V2 v2, ts => .V2 { v2 with timestamp := ts }

/-- `parse_ruuvi_raw` from `ruuvi-listener/src/schema.rs`.  `data` is the
payload slice starting at the format byte; fields are read big-endian at the
documented offsets (indexing is guarded by the length checks, so the `getD`
default is never relevant). -/
def parse_ruuvi_raw (data_format : Nat) (data : List Nat) :
    Except ParseError RuuviRaw :=
  if data_format = 0xE1 then
    if data.length < 40 then .error .TooShort
    else
      .ok (.E1 {
        temp := beI16 (data.getD 1 0) (data.getD 2 0)
        humidity := be16 (data.getD 3 0) (data.getD 4 0)
        pressure := be16 (data.getD 5 0) (data.getD 6 0)
        pm1_0 := be16 (data.getD 7 0) (data.getD 8 0)
        pm2_5 := be16 (data.getD 9 0) (data.getD 10 0)
        pm4_0 := be16 (data.getD 11 0) (data.getD 12 0)
        pm10_0 := be16 (data.getD 13 0) (data.getD 14 0)
        co2 := be16 (data.getD 15 0) (data.getD 16 0)
        voc_index := ((data.getD 17 0) <<< 1) ||| (((data.getD 28 0) >>> 6) &&& 1)
        nox_index := ((data.getD 18 0) <<< 1) ||| (((data.getD 28 0) >>> 7) &&& 1)
        luminosity :=
          ((data.getD 19 0) <<< 16) ||| ((data.getD 20 0) <<< 8) ||| data.getD 21 0
        measurement_seq :=
          ((data.getD 25 0) <<< 16) ||| ((data.getD 26 0) <<< 8) ||| data.getD 27 0
        flags := data.getD 28 0
        mac := [data.getD 34 0, data.getD 35 0, data.getD 36 0,
                data.getD 37 0, data.getD 38 0, data.getD 39 0]
        timestamp := none })
  else if data_format = 0x5 then
    if data.length < 24 then .error .TooShort
    else
      .ok (.V2 {
        temp := beI16 (data.getD 1 0) (data.getD 2 0)
        humidity := be16 (data.getD 3 0) (data.getD 4 0)
        pressure := be16 (data.getD 5 0) (data.getD 6 0)
        acc_x := beI16 (data.getD 7 0) (data.getD 8 0)
        acc_y := beI16 (data.getD 9 0) (data.getD 10 0)
        acc_z := beI16 (data.getD 11 0) (data.getD 12 0)
        power_info := be16 (data.getD 13 0) (data.getD 14 0)
        movement_counter := data.getD 15 0
        measurement_seq := be16 (data.getD 16 0) (data.getD 17 0)
        mac := [data.getD 18 0, data.getD 19 0, data.getD 20 0,
                data.getD 21 0, data.getD 22 0, data.getD 23 0]
        timestamp := none })
  else .error (.UnknownFormat data_format)

/-- Capacity of the dedup map (`FnvIndexMap<[u8; 6], u32, 16>`) and of the
handoff channel (`Channel<_, (RuuviRaw, Instant), 16>`). -/
def CAP : Nat := 16

/-- `FnvIndexMap::get`, modelled on an insertion-ordered association list. -/
def mapGet (m : List (List Nat × Nat)) (k : List Nat) : Option Nat :=
  match m with
  | [] => none
  | (k', v) :: rest => if k' = k then some v else mapGet rest k

/-- Whether the map holds an entry for `k`. -/
def mapContainsKey (m : List (List Nat × Nat)) (k : List Nat) : Bool :=
  match m with
  | [] => false
  | (k', _) :: rest => k' = k || mapContainsKey rest k

/-- Replace the value stored under an existing key. -/
def mapReplace (m : List (List Nat × Nat)) (k : List Nat) (v : Nat) :
    List (List Nat × Nat) :=
  match m with
  | [] => []
  | (k', v') :: rest =>
    if k' = k then (k, v) :: rest else (k', v') :: mapReplace rest k v

/-- `FnvIndexMap::insert` with capacity 16: replaces the value when the key is
present; appends when there is room; fails (returns the map unchanged and
`false`) when the map is full and the key is new. -/
def mapInsert (m : List (List Nat × Nat)) (k : List Nat) (v : Nat) :
    List (List Nat × Nat) × Bool :=
  if mapContainsKey m k then (mapReplace m k v, true)
  else if m.length < CAP then (m ++ [(k, v)], true)
  else (m, false)

/-- Scanner task state: the dedup map (`sequence_numbers`) and the contents of
the bounded handoff channel, oldest first. -/
structure ScanState where
  seqs : List (List Nat × Nat)
  queue : List (RuuviRaw × Nat)
deriving DecidableEq, Repr

/-- `Handler::is_new_seq`: `map.get(&mac).is_none_or(|prev| *prev != seq)`. -/
def is_new_seq (seqs : List (List Nat × Nat)) (mac : List Nat) (seq : Nat) :
    Bool :=
  match mapGet seqs mac with
  | none => true
  | some prev => prev ≠ seq

/-- `Handler::upsert_seq`: insert, ignoring (only logging) an insertion error. -/
def upsert_seq (seqs : List (List Nat × Nat)) (mac : List Nat) (seq : Nat) :
    List (List Nat × Nat) :=
  (mapInsert seqs mac seq).1

/-- One successfully parsed report through `Handler::on_ext_adv_reports`
(`ruuvi-listener/src/scanner.rs` lines 127-160): if the channel is full it is
cleared; then the duplicate check runs, the dedup map is updated, and a
non-duplicate record is enqueued with `try_send`.  `t` is the `Instant::now()`
captured before parsing. -/
def processReport (st : ScanState) (r : RuuviRaw) (t : Nat) : ScanState :=
  let q := if st.queue.length = CAP then [] else st.queue
  let isNew := is_new_seq st.seqs r.mac r.measurement_seq
  let seqs := upsert_seq st.seqs r.mac r.measurement_seq
  if isNew then
    { seqs := seqs, queue := if q.length < CAP then q ++ [(r, t)] else q }
  else
    { seqs := seqs, queue := q }

/-- A stream of timestamped parsed reports through the scanner handler. -/
def processReports (st : ScanState) (rs : List (RuuviRaw × Nat)) : ScanState :=
  rs.foldl (fun st rt => processReport st rt.1 rt.2) st

end Listener

/-! ## Framing (C6 of the spec): 2-byte big-endian length prefix -/

/-- `send` (both `ruuvi-listener/src/sender.rs` and
`ruuvi-gateway/src/main.rs`): fails if the payload exceeds `u16` range
(`u16::try_from` error resp. `expect` panic), otherwise writes the 2-byte
big-endian length followed by the payload. -/
def sendFrame (b : List Nat) : Option (List Nat) :=
  if b.length ≤ 65535 then some ([b.length / 256, b.length % 256] ++ b)
  else none

/-- `recv`: `read_exact` of the 2 length bytes, then `read_exact` of that many
payload bytes into a fixed buffer of `bufSize` bytes.  A length that exceeds
the buffer makes `&mut rx_buffer[..msg_len]` panic (modelled as `none`); a
stream shorter than announced makes `read_exact` fail.  Returns the payload
and the unread remainder of the stream. -/
def recvFrame (bufSize : Nat) (s : List Nat) : Option (List Nat × List Nat) :=
  match s with
  | l0 :: l1 :: rest =>
    let n := be16 l0 l1
    if bufSize < n then none
    else if rest.length < n then none
    else some (rest.take n, rest.drop n)
  | _ => none

/-- The listener's `recv` reads into a `[u8; 1024]` buffer. -/
def listenerRecv : List Nat → Option (List Nat × List Nat) := recvFrame 1024

/-- The gateway's `recv` is called with `[u8; 4096]` buffers. -/
def gatewayRecv : List Nat → Option (List Nat × List Nat) := recvFrame 4096

/-! ## Time sync (`sync_time`) and timestamp stamping (`run`) -/

/-- Wrap-around modulus of `u64` arithmetic. -/
def U64 : Nat := 2 ^ 64

/-- The anchor computed by `sync_time` (`ruuvi-listener/src/sender.rs` lines
166-193), at millisecond granularity: `t1` is the monotonic instant before the
request, `t2` the instant the reply arrived (`elapsed = t2 - t1`), `tsrv` the
server's Unix-millisecond timestamp.  Returns `(ref_t, adjusted_timestamp)`;
the addition is wrapping `u64`. -/
def syncAnchor (t1 t2 tsrv : Nat) : Nat × Nat :=
  let delay := (t2 - t1) / 2
  (t1 + delay, (tsrv + delay) % U64)

/-- Timestamp stamping of a dequeued sample (`ruuvi-listener/src/sender.rs`
lines 292-299): for a sample captured at monotonic time `t` and the anchor
`(refLocal, refWall)`, the branch on `t >= ref_t` adds or subtracts the
saturating instant difference in wrapping `u64` arithmetic. -/
def stampTimestamp (refLocal refWall t : Nat) : Nat :=
  if refLocal ≤ t then (refWall + (t - refLocal)) % U64
  else (refWall + U64 - (refLocal - t) % U64) % U64

/-- What the spec's words say the stamp is: `ref_wall + signed_ms(t − ref_local)`
with saturating arithmetic at zero. -/
def specStampSaturating (refLocal refWall t : Nat) : Nat :=
  ((refWall : Int) + ((t : Int) - (refLocal : Int))).toNat

/-! ## Reconnect backoff (`run`) -/

/-- `BASE_BACKOFF_MS` from `ruuvi-listener/src/sender.rs`. -/
def BASE_BACKOFF_MS : Nat := 500

/-- `MAX_BACKOFF_SECS * 1000`. -/
def MAX_BACKOFF_MS : Nat := 30000

/-- The outcomes in the sender loop (`ruuvi-listener/src/sender.rs`) that touch
the backoff state. -/
inductive SenderEvent where
  | connectFail
  | handshakeFail
  | syncFail
  | connectOk
  | handshakeOk
  | syncOk
  | sendOk
  | sendFail
deriving DecidableEq, Repr

/-- Effect of one event on the backoff: returns the new backoff and the sleep
performed (if any).  Connect / handshake errors and a send error sleep the
current backoff and then double it (capped at 30 s); a `sync_time` error only
logs and retries (`try_continue!` without a sleep); a successful send resets
the backoff to 500 ms; the other successes leave it unchanged. -/
def backoffStep (b : Nat) : SenderEvent → Nat × Option Nat
  | .connectFail => (min (b * 2) MAX_BACKOFF_MS, some b)
  | .handshakeFail => (min (b * 2) MAX_BACKOFF_MS, some b)
  | .syncFail => (b, none)
  | .connectOk => (b, none)
  | .handshakeOk => (b, none)
  | .syncOk => (b, none)
  | .sendOk => (BASE_BACKOFF_MS, none)
  | .sendFail => (min (b * 2) MAX_BACKOFF_MS, some b)

/-- Run a list of events from a backoff value, collecting the sleeps in
order.  Returns the final backoff and the sleep list. -/
def backoffTrace (b : Nat) (es : List SenderEvent) : Nat × List Nat :=
  match es with
  | [] => (b, [])
  | e :: rest =>
    let (b', slept) := backoffStep b e
    let (bEnd, sleeps) := backoffTrace b' rest
    (bEnd, (slept.toList) ++ sleeps)

/-! ## Frames written by the listener after transport establishment -/

/-- A frame payload written to the socket after the Noise handshake: either
plaintext bytes passed directly to `send`, or the output of the transport
state's `write_message` on the given plaintext (an AEAD ciphertext). -/
inductive SentFrame where
  | plain : List Nat → SentFrame
  | ciphertext : List Nat → SentFrame
deriving DecidableEq, Repr

/-- Whether a frame's payload was produced by the session's sending cipher
state. -/
def SentFrame.isTransportCiphertext : SentFrame → Bool
  | .plain _ => false
  | .ciphertext _ => true

/-- The sequence of frames the listener writes after `into_transport_mode`
succeeds, for a session that streams the serialized records `records`:
`sync_time` first sends the time-sync request as `send(socket, &[])` — an
empty frame that does NOT pass through `tp.write_message`
(`ruuvi-listener/src/sender.rs` line 176) — and each streamed record is then
sent as `tp.write_message(new_payload, ..)` output (lines 317-328). -/
def listenerPostHandshakeSends (records : List (List Nat)) : List SentFrame :=
  SentFrame.plain [] :: records.map SentFrame.ciphertext

/-- Modelled from the spec: §4.5 fixes the transport cipher to
ChaCha20-Poly1305 (the `snow` library), whose AEAD output is the plaintext
length plus a 16-byte authentication tag.  (Only the length is needed here:
it shows an empty frame can never be a transport ciphertext.) -/
def noiseTransportCiphertextLen (ptLen : Nat) : Nat := ptLen + 16

/-! ## ruuvi-schema: the shared serde types the gateway deserializes -/

namespace Schema

/-- `RuuviRawV2` from `ruuvi-schema/src/lib.rs` — unlike the listener's local
struct it carries a trailing `rssi: i8` field. -/
structure RuuviRawV2 where
  temp : Int
  humidity : Nat
  pressure : Nat
  acc_x : Int
  acc_y : Int
  acc_z : Int
  power_info : Nat
  movement_counter : Nat
  measurement_seq : Nat
  mac : List Nat
  timestamp : Option Nat
  rssi : Int
deriving DecidableEq, Repr

/-- `RuuviRawE1` from `ruuvi-schema/src/lib.rs` — carries trailing
`rssi: i8` and `tx_power: i8` fields. -/
structure RuuviRawE1 where
  temp : Int
  humidity : Nat
  pressure : Nat
  pm1_0 : Nat
  pm2_5 : Nat
  pm4_0 : Nat
  pm10_0 : Nat
  co2 : Nat
  voc_index : Nat
  nox_index : Nat
  luminosity : Nat
  measurement_seq : Nat
  flags : Nat
  mac : List Nat
  timestamp : Option Nat
  rssi : Int
  tx_power : Int
deriving DecidableEq, Repr

/-- `RuuviRaw` from `ruuvi-schema/src/lib.rs`. -/
inductive RuuviRaw where
  | V2 : RuuviRawV2 → RuuviRaw
  | E1 : RuuviRawE1 → RuuviRaw
deriving DecidableEq, Repr

/-- Range of a two's-complement `i16`. -/
abbrev I16Range (v : Int) : Prop := -32768 ≤ v ∧ v < 32768

/-- Range of a two's-complement `i8`. -/
abbrev I8Range (v : Int) : Prop := -128 ≤ v ∧ v < 128

/-- A well-formed 6-byte MAC. -/
abbrev WfMac (m : List Nat) : Prop := m.length = 6 ∧ ∀ b ∈ m, b < 256

/-- Field ranges of `RuuviRawV2` as declared in `ruuvi-schema/src/lib.rs`. -/
abbrev WfV2 (r : RuuviRawV2) : Prop :=
  I16Range r.temp ∧ r.humidity < 2 ^ 16 ∧ r.pressure < 2 ^ 16 ∧
  I16Range r.acc_x ∧ I16Range r.acc_y ∧ I16Range r.acc_z ∧
  r.power_info < 2 ^ 16 ∧ r.movement_counter < 2 ^ 8 ∧
  r.measurement_seq < 2 ^ 16 ∧ WfMac r.mac ∧
  (∀ v ∈ r.timestamp, v < 2 ^ 64) ∧ I8Range r.rssi

/-- Field ranges of `RuuviRawE1` as declared in `ruuvi-schema/src/lib.rs`. -/
abbrev WfE1 (r : RuuviRawE1) : Prop :=
  I16Range r.temp ∧ r.humidity < 2 ^ 16 ∧ r.pressure < 2 ^ 16 ∧
  r.pm1_0 < 2 ^ 16 ∧ r.pm2_5 < 2 ^ 16 ∧ r.pm4_0 < 2 ^ 16 ∧
  r.pm10_0 < 2 ^ 16 ∧ r.co2 < 2 ^ 16 ∧ r.voc_index < 2 ^ 16 ∧
  r.nox_index < 2 ^ 16 ∧ r.luminosity < 2 ^ 32 ∧
  r.measurement_seq < 2 ^ 32 ∧ r.flags < 2 ^ 8 ∧ WfMac r.mac ∧
  (∀ v ∈ r.timestamp, v < 2 ^ 64) ∧ I8Range r.rssi ∧ I8Range r.tx_power

/-- Well-formedness of a `RuuviRaw` value. -/
abbrev WfRaw : RuuviRaw → Prop
  | .V2 r => WfV2 r
  | .E1 r => WfE1 r

end Schema

/-! ## The postcard wire format, specialised to `ruuvi_schema::RuuviRaw`

The gateway deserializes records with `postcard::from_bytes::<RuuviRaw>`.
Postcard's documented wire format: `u8`/`i8` are single bytes, wider unsigned
integers are LEB128 varints, wider signed integers are zigzag-mapped varints,
`Option` is a `0`/`1` tag byte followed by the value, fixed-size arrays are
their elements in order (no length), struct fields appear in declaration
order, and an enum is its variant index as a varint followed by the variant's
fields. -/

namespace Postcard

/-- LEB128 varint encoding: 7 value bits per byte, high bit as continuation. -/
def varintEnc (n : Nat) : List Nat :=
  if h : n < 128 then [n]
  else (n % 128 + 128) :: varintEnc (n / 128)
decreasing_by exact Nat.div_lt_self (by omega) (by omega)

/-- `varint_max::<T>()` from postcard: the most bytes a varint of bit width
`w` may occupy. -/
def varintMax (w : Nat) : Nat := (w + 6) / 7

/-- `max_of_last_byte::<T>()` from postcard: the largest admissible final
byte of a maximal-length varint of bit width `w`. -/
def maxLastByte (w : Nat) : Nat := 2 ^ (w % 7) - 1

/-- The loop of postcard's `try_take_varint_u{16,32,64}`: accumulate 7 bits
per byte (the shift wraps in the `w`-bit integer type, hence `% 2 ^ w`),
stop at a byte without the continuation bit, reject a maximal-length varint
whose last byte exceeds `maxLastByte`, and reject a varint longer than
`varintMax` bytes. -/
def takeVarintGo (w : Nat) : Nat → Nat → Nat → List Nat →
    Option (Nat × List Nat)
  | 0, _, _, _ => none
  | _ + 1, _, _, [] => none
  | fuel + 1, i, acc, b :: rest =>
    let acc' := acc ||| (((b % 128) <<< (7 * i)) % 2 ^ w)
    if b % 256 < 128 then
      if i = varintMax w - 1 ∧ maxLastByte w < b then none
      else some (acc', rest)
    else takeVarintGo w fuel (i + 1) acc' rest

/-- Postcard varint decoding for a `w`-bit unsigned integer; returns the
value and the remaining bytes. -/
def takeVarint (w : Nat) (s : List Nat) : Option (Nat × List Nat) :=
  takeVarintGo w (varintMax w) 0 0 s

/-- Postcard's zigzag map for signed integers
(`(n << 1) ^ (n >> BITS-1)` in two's complement, here in arithmetic form). -/
def zigzag (v : Int) : Nat :=
  if 0 ≤ v then 2 * v.toNat else 2 * (-v).toNat - 1

/-- Inverse zigzag map. -/
def unzigzag (n : Nat) : Int :=
  if n % 2 = 0 then ((n / 2 : Nat) : Int) else -((n / 2 : Nat) : Int) - 1

/-- Serialize an `i16` (zigzag then varint). -/
def serI16 (v : Int) : List Nat := varintEnc (zigzag v)

/-- Deserialize an `i16`. -/
def deserI16 (s : List Nat) : Option (Int × List Nat) :=
  (takeVarint 16 s).map fun p => (unzigzag p.1, p.2)

/-- Serialize a `u8` (a single byte). -/
def serU8 (n : Nat) : List Nat := [n]

/-- Deserialize a `u8`. -/
def deserU8 (s : List Nat) : Option (Nat × List Nat) :=
  match s with
  | b :: rest => some (b, rest)
  | [] => none

/-- Serialize an `i8` (a single two's-complement byte). -/
def serI8 (v : Int) : List Nat := [(if 0 ≤ v then v else v + 256).toNat]

/-- Deserialize an `i8`. -/
def deserI8 (s : List Nat) : Option (Int × List Nat) :=
  match s with
  | b :: rest => some (toI8 b, rest)
  | [] => none

/-- Serialize an `Option<u64>`: tag byte `0` or `1`, then the varint. -/
def serOptU64 : Option Nat → List Nat
  | none => [0]
  | some v => 1 :: varintEnc v

/-- Deserialize an `Option<u64>`. -/
def deserOptU64 (s : List Nat) : Option (Option Nat × List Nat) :=
  match s with
  | 0 :: rest => some (none, rest)
  | 1 :: rest => (takeVarint 64 rest).map fun p => (some p.1, p.2)
  | _ => none

/-- Deserialize a `[u8; 6]` (six raw bytes). -/
def deserMac (s : List Nat) : Option (List Nat × List Nat) :=
  match s with
  | a :: b :: c :: d :: e :: f :: rest => some ([a, b, c, d, e, f], rest)
  | _ => none

/-- Postcard serialization of `ruuvi_schema::RuuviRawV2`, fields in
declaration order. -/
def serV2 (r : Schema.RuuviRawV2) : List Nat :=
  serI16 r.temp ++ varintEnc r.humidity ++ varintEnc r.pressure ++
  serI16 r.acc_x ++ serI16 r.acc_y ++ serI16 r.acc_z ++
  varintEnc r.power_info ++ serU8 r.movement_counter ++
  varintEnc r.measurement_seq ++ r.mac ++ serOptU64 r.timestamp ++
  serI8 r.rssi

/-- Postcard serialization of `ruuvi_schema::RuuviRawE1`. -/
def serE1 (r : Schema.RuuviRawE1) : List Nat :=
  serI16 r.temp ++ varintEnc r.humidity ++ varintEnc r.pressure ++
  varintEnc r.pm1_0 ++ varintEnc r.pm2_5 ++ varintEnc r.pm4_0 ++
  varintEnc r.pm10_0 ++ varintEnc r.co2 ++ varintEnc r.voc_index ++
  varintEnc r.nox_index ++ varintEnc r.luminosity ++
  varintEnc r.measurement_seq ++ serU8 r.flags ++ r.mac ++
  serOptU64 r.timestamp ++ serI8 r.rssi ++ serI8 r.tx_power

/-- Postcard serialization of the `RuuviRaw` enum: variant index as a varint,
then the variant's fields. -/
def serRuuviRaw : Schema.RuuviRaw → List Nat
  | .V2 r => varintEnc 0 ++ serV2 r
  | .E1 r => varintEnc 1 ++ serE1 r

/-- Sequencing of parsing steps (each step returns a value and the remaining
bytes). -/
def pbind {α β : Type} (p : Option (α × List Nat))
    (k : α → List Nat → Option (β × List Nat)) : Option (β × List Nat) :=
  match p with
  | none => none
  | some (a, s) => k a s

/-- Postcard deserialization of `RuuviRawV2`. -/
def deserV2 (s : List Nat) : Option (Schema.RuuviRawV2 × List Nat) :=
  pbind (deserI16 s) fun temp s =>
  pbind (takeVarint 16 s) fun humidity s =>
  pbind (takeVarint 16 s) fun pressure s =>
  pbind (deserI16 s) fun accx s =>
  pbind (deserI16 s) fun accy s =>
  pbind (deserI16 s) fun accz s =>
  pbind (takeVarint 16 s) fun power s =>
  pbind (deserU8 s) fun movement s =>
  pbind (takeVarint 16 s) fun seq s =>
  pbind (deserMac s) fun mac s =>
  pbind (deserOptU64 s) fun timestamp s =>
  pbind (deserI8 s) fun rssi s =>
  some (⟨temp, humidity, pressure, accx, accy, accz, power, movement, seq,
         mac, timestamp, rssi⟩, s)

/-- Postcard deserialization of `RuuviRawE1`. -/
def deserE1 (s : List Nat) : Option (Schema.RuuviRawE1 × List Nat) :=
  pbind (deserI16 s) fun temp s =>
  pbind (takeVarint 16 s) fun humidity s =>
  pbind (takeVarint 16 s) fun pressure s =>
  pbind (takeVarint 16 s) fun pm10 s =>
  pbind (takeVarint 16 s) fun pm25 s =>
  pbind (takeVarint 16 s) fun pm40 s =>
  pbind (takeVarint 16 s) fun pm100 s =>
  pbind (takeVarint 16 s) fun co2 s =>
  pbind (takeVarint 16 s) fun voc s =>
  pbind (takeVarint 16 s) fun nox s =>
  pbind (takeVarint 32 s) fun lum s =>
  pbind (takeVarint 32 s) fun seq s =>
  pbind (deserU8 s) fun flags s =>
  pbind (deserMac s) fun mac s =>
  pbind (deserOptU64 s) fun timestamp s =>
  pbind (deserI8 s) fun rssi s =>
  pbind (deserI8 s) fun txp s =>
  some (⟨temp, humidity, pressure, pm10, pm25, pm40, pm100, co2, voc, nox,
         lum, seq, flags, mac, timestamp, rssi, txp⟩, s)

/-- Postcard deserialization of the `RuuviRaw` enum. -/
def deserRuuviRaw (s : List Nat) : Option (Schema.RuuviRaw × List Nat) :=
  pbind (takeVarint 32 s) fun d s =>
  match d with
  | 0 => (deserV2 s).map fun p => (Schema.RuuviRaw.V2 p.1, p.2)
  | 1 => (deserE1 s).map fun p => (Schema.RuuviRaw.E1 p.1, p.2)
  | _ => none

/-- `postcard::from_bytes::<RuuviRaw>` (`ruuvi-gateway/src/main.rs` line 266):
deserializes from the front of the slice, discarding any trailing bytes. -/
def fromBytesRuuviRaw (s : List Nat) : Option Schema.RuuviRaw :=
  (deserRuuviRaw s).map Prod.fst

/-- Postcard serialization of a fixed-size `[u8; N]` byte array: the bytes
themselves (no length prefix) — this is what
`postcard::to_slice(&inner_data, ..)` produces in `ruuvi-listener/src/sender.rs`
line 307, where `inner_data` is the byte array returned by `to_bytes`. -/
def serFixedBytes (bs : List Nat) : List Nat := bs

/-! ### Lemmas: varint round trip and decoder bounds -/

theorem varintEnc_small (n : Nat) (h : n < 128) : varintEnc n = [n] := by
  rw [varintEnc]
  simp [h]

theorem varintEnc_large (n : Nat) (h : ¬ n < 128) :
    varintEnc n = (n % 128 + 128) :: varintEnc (n / 128) := by
  rw [varintEnc]
  simp [h]

/-- Disjoint bit ranges turn bitwise or into addition. -/
theorem lor_shiftLeft_eq_add (k : Nat) :
    ∀ (a b : Nat), a < 2 ^ k → a ||| (b <<< k) = a + b <<< k := by
  induction k with
  | zero =>
    intro a b h
    interval_cases a
    simp [Nat.shiftLeft_eq]
  | succ k ih =>
    intro a b h
    have ha : a = Nat.bit (a % 2 = 1) (a / 2) := by
      simp [Nat.bit]
      rcases Nat.mod_two_eq_zero_or_one a with h2 | h2 <;> simp [h2] <;> omega
    have hb : b <<< (k + 1) = Nat.bit false (b <<< k) := by
      simp [Nat.bit, Nat.shiftLeft_eq, Nat.pow_succ]
      ring
    rw [ha, hb, Nat.lor_bit]
    have hdiv : a / 2 < 2 ^ k := by
      rw [Nat.pow_succ] at h
      omega
    rw [ih (a / 2) b hdiv]
    rcases Nat.mod_two_eq_zero_or_one a with h2 | h2 <;>
      simp [Nat.bit, h2, Nat.shiftLeft_eq, Nat.pow_succ] <;> ring_nf

/-- A bitwise or is at least its left operand. -/
theorem left_le_lor (a b : Nat) : a ≤ a ||| b :=
  Nat.le_of_testBit fun i h => by rw [Nat.testBit_lor, h, Bool.true_or]

/-- The decoder loop, fed the encoding of `n` (plus trailing bytes) from an
accumulator holding `i` finished 7-bit groups, returns `acc + n · 2^(7i)`. -/
theorem takeVarintGo_spec (w : Nat) (hw : w % 7 ≠ 0) :
    ∀ n i acc rest,
      n < 2 ^ (w - 7 * i) →
      acc < 2 ^ (7 * i) →
      7 * i < w →
      takeVarintGo w (varintMax w - i) i acc (varintEnc n ++ rest) =
        some (acc + n * 2 ^ (7 * i), rest) := by
  intro n
  induction n using Nat.strong_induction_on with
  | _ n ih =>
    intro i acc rest hn hacc hi
    have hiM : i < varintMax w := by
      unfold varintMax
      omega
    obtain ⟨f, hf⟩ : ∃ f, varintMax w - i = f + 1 :=
      ⟨varintMax w - i - 1, by omega⟩
    rw [hf]
    by_cases hsmall : n < 128
    · rw [varintEnc_small n hsmall, List.cons_append, List.nil_append]
      simp only [takeVarintGo]
      have hm128 : n % 128 = n := Nat.mod_eq_of_lt hsmall
      have hmod : (n <<< (7 * i)) % 2 ^ w = n <<< (7 * i) := by
        apply Nat.mod_eq_of_lt
        rw [Nat.shiftLeft_eq]
        calc n * 2 ^ (7 * i) < 2 ^ (w - 7 * i) * 2 ^ (7 * i) :=
              (Nat.mul_lt_mul_right (Nat.pos_pow_of_pos _ (by omega))).2 hn
          _ = 2 ^ w := by
              rw [← Nat.pow_add]
              congr 1
              omega
      rw [if_pos (by omega : n % 256 < 128)]
      simp only [hm128, hmod]
      have hacc' : acc ||| n <<< (7 * i) = acc + n <<< (7 * i) :=
        lor_shiftLeft_eq_add (7 * i) acc n hacc
      by_cases hlast : i = varintMax w - 1
      · have hwi : w - 7 * i = w % 7 := by
          unfold varintMax at hlast
          omega
        have hple : 0 < 2 ^ (w % 7) := Nat.pos_pow_of_pos _ (by omega)
        have hnle : ¬ maxLastByte w < n := by
          unfold maxLastByte
          rw [hwi] at hn
          omega
        rw [if_neg (by tauto)]
        rw [hacc', Nat.shiftLeft_eq]
      · rw [if_neg (by tauto)]
        rw [hacc', Nat.shiftLeft_eq]
    · rw [varintEnc_large n hsmall, List.cons_append]
      simp only [takeVarintGo]
      have hb128 : (n % 128 + 128) % 128 = n % 128 := by omega
      have hb256 : ¬ (n % 128 + 128) % 256 < 128 := by omega
      have h7 : 7 < w - 7 * i := by
        have h2pow : (2 : Nat) ^ 7 < 2 ^ (w - 7 * i) := by
          calc (2 : Nat) ^ 7 = 128 := by norm_num
            _ ≤ n := by omega
            _ < 2 ^ (w - 7 * i) := hn
        exact (Nat.pow_lt_pow_iff_right (by omega)).1 h2pow
      have hmod : ((n % 128) <<< (7 * i)) % 2 ^ w =
          (n % 128) <<< (7 * i) := by
        apply Nat.mod_eq_of_lt
        rw [Nat.shiftLeft_eq]
        calc (n % 128) * 2 ^ (7 * i) < 128 * 2 ^ (7 * i) :=
              (Nat.mul_lt_mul_right (Nat.pos_pow_of_pos _ (by omega))).2
                (by omega)
          _ = 2 ^ (7 * i + 7) := by
              rw [Nat.pow_add]
              ring
          _ ≤ 2 ^ w := Nat.pow_le_pow_right (by omega) (by omega)
      rw [if_neg hb256]
      simp only [hb128, hmod]
      have hacc' : acc ||| (n % 128) <<< (7 * i) =
          acc + (n % 128) <<< (7 * i) :=
        lor_shiftLeft_eq_add (7 * i) acc (n % 128) hacc
      rw [hacc']
      have hfix : f = varintMax w - (i + 1) := by omega
      rw [hfix]
      have hrec := ih (n / 128) (Nat.div_lt_self (by omega) (by omega))
        (i + 1)
        (acc + (n % 128) <<< (7 * i)) rest
        (by
          rw [Nat.div_lt_iff_lt_mul (by omega : (0:Nat) < 128)]
          calc n < 2 ^ (w - 7 * i) := hn
            _ = 2 ^ (w - 7 * (i + 1)) * 128 := by
              rw [show (128 : Nat) = 2 ^ 7 by norm_num, ← Nat.pow_add]
              congr 1
              omega)
        (by
          rw [Nat.shiftLeft_eq]
          have hlt : (n % 128) * 2 ^ (7 * i) ≤ 127 * 2 ^ (7 * i) :=
            Nat.mul_le_mul_right _ (by omega)
          have h1 : (127 : Nat) * 2 ^ (7 * i) + 2 ^ (7 * i) =
              128 * 2 ^ (7 * i) := by ring
          have h2 : (128 : Nat) * 2 ^ (7 * i) = 2 ^ (7 * (i + 1)) := by
            rw [show 7 * (i + 1) = 7 * i + 7 by ring, Nat.pow_add]
            ring
          omega)
        (by omega)
      rw [hrec]
      have hval : acc + (n % 128) <<< (7 * i) +
          (n / 128) * 2 ^ (7 * (i + 1)) = acc + n * 2 ^ (7 * i) := by
        rw [Nat.shiftLeft_eq]
        have hsplit : 128 * (n / 128) + n % 128 = n := Nat.div_add_mod n 128
        calc acc + (n % 128) * 2 ^ (7 * i) + (n / 128) * 2 ^ (7 * (i + 1))
            = acc + (128 * (n / 128) + n % 128) * 2 ^ (7 * i) := by
              rw [show 7 * (i + 1) = 7 * i + 7 by ring, Nat.pow_add]
              ring
          _ = acc + n * 2 ^ (7 * i) := by rw [hsplit]
      rw [hval]

/-- Varint round trip: decoding the encoding of an in-range value returns the
value and leaves the trailing bytes untouched. -/
theorem takeVarint_enc (w : Nat) (hw : w % 7 ≠ 0) (n : Nat)
    (hn : n < 2 ^ w) (rest : List Nat) :
    takeVarint w (varintEnc n ++ rest) = some (n, rest) := by
  unfold takeVarint
  have h := takeVarintGo_spec w hw n 0 0 rest (by simpa using hn)
    (by simp) (by omega)
  simpa using h

/-- A successful decode returns at least the starting accumulator. -/
theorem takeVarintGo_ge (w : Nat) :
    ∀ fuel i acc s v rest,
      takeVarintGo w fuel i acc s = some (v, rest) → acc ≤ v := by
  intro fuel
  induction fuel with
  | zero =>
    intro i acc s v rest h
    simp [takeVarintGo] at h
  | succ f ih =>
    intro i acc s v rest h
    match s with
    | [] => simp [takeVarintGo] at h
    | b :: bs =>
      simp only [takeVarintGo] at h
      by_cases hb : b % 256 < 128
      · rw [if_pos hb] at h
        by_cases hc : i = varintMax w - 1 ∧ maxLastByte w < b
        · rw [if_pos hc] at h
          exact absurd h (by simp)
        · rw [if_neg hc] at h
          simp only [Option.some.injEq, Prod.mk.injEq] at h
          rw [← h.1]
          exact left_le_lor acc _
      · rw [if_neg hb] at h
        exact le_trans (left_le_lor acc _) (ih _ _ _ _ _ h)

/-! ### Lemmas: zigzag and byte-level round trips -/

theorem unzigzag_zigzag (v : Int) : unzigzag (zigzag v) = v := by
  unfold zigzag unzigzag
  by_cases h : 0 ≤ v
  · rw [if_pos h, if_pos (by omega)]
    omega
  · rw [if_neg h, if_neg (by omega)]
    omega

theorem zigzag_lt_i16 (v : Int) (h : Schema.I16Range v) :
    zigzag v < 2 ^ 16 := by
  have h16 : (2 : Nat) ^ 16 = 65536 := by norm_num
  rw [h16]
  obtain ⟨h1, h2⟩ := h
  unfold zigzag
  by_cases hv : 0 ≤ v
  · rw [if_pos hv]
    omega
  · rw [if_neg hv]
    omega

theorem deserI16_ser (v : Int) (h : Schema.I16Range v) (rest : List Nat) :
    deserI16 (serI16 v ++ rest) = some (v, rest) := by
  unfold serI16 deserI16
  rw [takeVarint_enc 16 (by norm_num) (zigzag v) (zigzag_lt_i16 v h) rest]
  simp [unzigzag_zigzag]

theorem deserU8_ser (n : Nat) (rest : List Nat) :
    deserU8 (serU8 n ++ rest) = some (n, rest) := rfl

theorem deserI8_ser (v : Int) (h : Schema.I8Range v) (rest : List Nat) :
    deserI8 (serI8 v ++ rest) = some (v, rest) := by
  unfold serI8 deserI8 toI8
  obtain ⟨h1, h2⟩ := h
  by_cases hv : 0 ≤ v
  · rw [if_pos hv]
    simp only [List.cons_append, List.nil_append]
    rw [if_pos (by omega)]
    simp
    omega
  · rw [if_neg hv]
    simp only [List.cons_append, List.nil_append]
    rw [if_neg (by omega)]
    simp
    omega

theorem deserOptU64_ser (ts : Option Nat) (h : ∀ v ∈ ts, v < 2 ^ 64)
    (rest : List Nat) : deserOptU64 (serOptU64 ts ++ rest) =
      some (ts, rest) := by
  match ts with
  | none => rfl
  | some v =>
    show deserOptU64 (1 :: (varintEnc v ++ rest)) = some (some v, rest)
    have hstep : deserOptU64 (1 :: (varintEnc v ++ rest)) =
        (takeVarint 64 (varintEnc v ++ rest)).map fun p =>
          (some p.1, p.2) := rfl
    rw [hstep, takeVarint_enc 64 (by norm_num) v (h v rfl) rest]
    rfl

theorem deserMac_ser (m rest : List Nat) (h : m.length = 6) :
    deserMac (m ++ rest) = some (m, rest) := by
  rcases m with _ | ⟨a, m⟩
  · simp at h
  rcases m with _ | ⟨b, m⟩
  · simp at h
  rcases m with _ | ⟨c, m⟩
  · simp at h
  rcases m with _ | ⟨d, m⟩
  · simp at h
  rcases m with _ | ⟨e, m⟩
  · simp at h
  rcases m with _ | ⟨f, m⟩
  · simp at h
  rcases m with _ | ⟨g, m⟩
  · rfl
  · simp at h

theorem pbind_some {α β : Type} (a : α) (s : List Nat)
    (k : α → List Nat → Option (β × List Nat)) :
    pbind (some (a, s)) k = k a s := rfl

/-! ### Lemmas: whole-record round trips and tag rejection -/

theorem deserV2_ser (r : Schema.RuuviRawV2) (h : Schema.WfV2 r)
    (rest : List Nat) : deserV2 (serV2 r ++ rest) = some (r, rest) := by
  obtain ⟨h1, h2, h3, h4, h5, h6, h7, h8, h9, h10, h11, h12⟩ := h
  simp only [serV2, List.append_assoc, deserV2]
  rw [deserI16_ser r.temp h1, pbind_some]
  rw [takeVarint_enc 16 (by norm_num) r.humidity h2, pbind_some]
  rw [takeVarint_enc 16 (by norm_num) r.pressure h3, pbind_some]
  rw [deserI16_ser r.acc_x h4, pbind_some]
  rw [deserI16_ser r.acc_y h5, pbind_some]
  rw [deserI16_ser r.acc_z h6, pbind_some]
  rw [takeVarint_enc 16 (by norm_num) r.power_info h7, pbind_some]
  rw [deserU8_ser r.movement_counter, pbind_some]
  rw [takeVarint_enc 16 (by norm_num) r.measurement_seq h9, pbind_some]
  rw [deserMac_ser r.mac _ h10.1, pbind_some]
  rw [deserOptU64_ser r.timestamp h11, pbind_some]
  rw [deserI8_ser r.rssi h12, pbind_some]

theorem deserE1_ser (r : Schema.RuuviRawE1) (h : Schema.WfE1 r)
    (rest : List Nat) : deserE1 (serE1 r ++ rest) = some (r, rest) := by
  obtain ⟨h1, h2, h3, h4, h5, h6, h7, h8, h9, h10, h11, h12, h13, h14, h15,
    h16, h17⟩ := h
  simp only [serE1, List.append_assoc, deserE1]
  rw [deserI16_ser r.temp h1, pbind_some]
  rw [takeVarint_enc 16 (by norm_num) r.humidity h2, pbind_some]
  rw [takeVarint_enc 16 (by norm_num) r.pressure h3, pbind_some]
  rw [takeVarint_enc 16 (by norm_num) r.pm1_0 h4, pbind_some]
  rw [takeVarint_enc 16 (by norm_num) r.pm2_5 h5, pbind_some]
  rw [takeVarint_enc 16 (by norm_num) r.pm4_0 h6, pbind_some]
  rw [takeVarint_enc 16 (by norm_num) r.pm10_0 h7, pbind_some]
  rw [takeVarint_enc 16 (by norm_num) r.co2 h8, pbind_some]
  rw [takeVarint_enc 16 (by norm_num) r.voc_index h9, pbind_some]
  rw [takeVarint_enc 16 (by norm_num) r.nox_index h10, pbind_some]
  rw [takeVarint_enc 32 (by norm_num) r.luminosity h11, pbind_some]
  rw [takeVarint_enc 32 (by norm_num) r.measurement_seq h12, pbind_some]
  rw [deserU8_ser r.flags, pbind_some]
  rw [deserMac_ser r.mac _ h14.1, pbind_some]
  rw [deserOptU64_ser r.timestamp h15, pbind_some]
  rw [deserI8_ser r.rssi h16, pbind_some]
  rw [deserI8_ser r.tx_power h17, pbind_some]

theorem deserRuuviRaw_ser (r : Schema.RuuviRaw) (h : Schema.WfRaw r)
    (rest : List Nat) :
    deserRuuviRaw (serRuuviRaw r ++ rest) = some (r, rest) := by
  match r with
  | .V2 v =>
    show deserRuuviRaw ((varintEnc 0 ++ serV2 v) ++ rest) = _
    rw [List.append_assoc]
    unfold deserRuuviRaw
    rw [takeVarint_enc 32 (by norm_num) 0 (by norm_num) (serV2 v ++ rest),
      pbind_some]
    show (deserV2 (serV2 v ++ rest)).map
      (fun p => (Schema.RuuviRaw.V2 p.1, p.2)) = _
    rw [deserV2_ser v h rest]
    rfl
  | .E1 e =>
    show deserRuuviRaw ((varintEnc 1 ++ serE1 e) ++ rest) = _
    rw [List.append_assoc]
    unfold deserRuuviRaw
    rw [takeVarint_enc 32 (by norm_num) 1 (by norm_num) (serE1 e ++ rest),
      pbind_some]
    show (deserE1 (serE1 e ++ rest)).map
      (fun p => (Schema.RuuviRaw.E1 p.1, p.2)) = _
    rw [deserE1_ser e h rest]
    rfl

/-- A stream whose first byte is the preserved V2 format tag `0x05` decodes
to the invalid enum discriminant 5 and is rejected. -/
theorem deserRuuviRaw_tag5 (s : List Nat) : deserRuuviRaw (5 :: s) = none :=
  rfl

/-- A stream whose first byte is the preserved E1 format tag `0xE1` yields a
discriminant of at least 97 (or fails outright) and is rejected. -/
theorem deserRuuviRaw_tag225 (s : List Nat) :
    deserRuuviRaw (225 :: s) = none := by
  have hstep : takeVarint 32 (225 :: s) = takeVarintGo 32 4 1 97 s := rfl
  unfold deserRuuviRaw
  rw [hstep]
  rcases hgo : takeVarintGo 32 4 1 97 s with _ | ⟨v, rest⟩
  · rfl
  · have hge : 97 ≤ v := takeVarintGo_ge 32 4 1 97 s v rest hgo
    obtain ⟨k, rfl⟩ : ∃ k, v = k + 2 := ⟨v - 2, by omega⟩
    rfl

end Postcard

/-- The payload the listener's streaming loop encrypts
(`ruuvi-listener/src/sender.rs` lines 302-315): `inner_data[0]` prepended to
the postcard serialization of the `inner_data` byte array. -/
def listenerStreamPayload (inner : List Nat) : List Nat :=
  inner.headD 0 :: Postcard.serFixedBytes inner

/-- Big-endian byte pair of a 16-bit value. -/
def be2of (n : Nat) : List Nat := [n / 256 % 256, n % 256]

/-- Two's-complement 16-bit image of a signed value. -/
def toU16 (v : Int) : Nat := (v % 65536).toNat

/-- Modelled from the spec: `RuuviRaw::to_bytes` is called by the sender
(`ruuvi-listener/src/sender.rs` line 303) but its definition is absent from
the sources.  Per §6 the serialized record matches the §3 byte layout (field
order, widths and endianness) and per §9 the format byte is preserved as the
byte-level discriminant, so for the V2 variant `to_bytes` is the 24-byte
RAWv2 advertisement layout: format byte `0x05`, then the big-endian fields,
then the 6-byte MAC. -/
def toBytesSpecV2 (r : Listener.RuuviRawV2) : List Nat :=
  5 :: (be2of (toU16 r.temp) ++ be2of r.humidity ++ be2of r.pressure ++
    be2of (toU16 r.acc_x) ++ be2of (toU16 r.acc_y) ++ be2of (toU16 r.acc_z) ++
    be2of r.power_info ++ [r.movement_counter] ++ be2of r.measurement_seq ++
    r.mac)

/-! ## Gateway timestamp handling (`from_raw`) -/

namespace Gateway

/-- Smallest Unix-millisecond value representable by chrono's `DateTime`
(`from_timestamp_millis` returns `Some` exactly on this range). -/
def chronoMinMs : Int := -8334632851200000

/-- Largest Unix-millisecond value representable by chrono's `DateTime`. -/
def chronoMaxMs : Int := 8210298412799999

/-- Model of chrono's `DateTime::from_timestamp_millis`: succeeds exactly on
the representable range, and the resulting instant is identified with its
Unix-millisecond value (`0` is the Unix epoch 1970-01-01T00:00:00Z). -/
def fromTimestampMillis (ms : Int) : Option Int :=
  if chronoMinMs ≤ ms ∧ ms ≤ chronoMaxMs then some ms else none

/-- Rust's `as i64` cast of a `u64` (two's-complement reinterpretation). -/
def u64AsI64 (v : Nat) : Int :=
  if v < 2 ^ 63 then (v : Int) else (v : Int) - 2 ^ 64

/-- The `recorded_at` instant computed by `RuuviV2::from_raw`
(`ruuvi-gateway/src/main.rs` lines 116-120):
`DateTime::from_timestamp_millis(raw.timestamp.unwrap_or(0) as i64)
.unwrap_or_else(|| fallback_dt)`. -/
def recordedAtV2 (ts : Option Nat) (fallback : Int) : Int :=
  match fromTimestampMillis (u64AsI64 (ts.getD 0)) with
  | some dt => dt
  | none => fallback

/-- The `recorded_at` instant computed by `RuuviE1::from_raw`
(`ruuvi-gateway/src/main.rs` lines 172-176) — the same expression as the V2
variant. -/
def recordedAtE1 (ts : Option Nat) (fallback : Int) : Int :=
  match fromTimestampMillis (u64AsI64 (ts.getD 0)) with
  | some dt => dt
  | none => fallback

/-- Whether the `unwrap_or_else` fallback branch (current wall time) runs for
the V2 variant. -/
def fallbackTakenV2 (ts : Option Nat) : Bool :=
  (fromTimestampMillis (u64AsI64 (ts.getD 0))).isNone

/-- Whether the fallback branch runs for the E1 variant. -/
def fallbackTakenE1 (ts : Option Nat) : Bool :=
  (fromTimestampMillis (u64AsI64 (ts.getD 0))).isNone

end Gateway

/-! ## Helper lemmas about the dedup map and the scanner step -/

theorem mapGet_mapReplace (m : List (List Nat × Nat)) (k : List Nat) (v : Nat)
    (h : Listener.mapContainsKey m k = true) :
    Listener.mapGet (Listener.mapReplace m k v) k = some v := by
  induction m with
  | nil => simp [Listener.mapContainsKey] at h
  | cons p rest ih =>
    obtain ⟨k', v'⟩ := p
    by_cases hk : k' = k
    · simp [Listener.mapReplace, Listener.mapGet, hk]
    · simp [Listener.mapContainsKey, hk] at h
      simp [Listener.mapReplace, Listener.mapGet, hk, ih h]

theorem mapGet_append_new (m : List (List Nat × Nat)) (k : List Nat) (v : Nat)
    (h : Listener.mapContainsKey m k = false) :
    Listener.mapGet (m ++ [(k, v)]) k = some v := by
  induction m with
  | nil => simp [Listener.mapGet]
  | cons p rest ih =>
    obtain ⟨k', v'⟩ := p
    simp [Listener.mapContainsKey] at h
    simp [Listener.mapGet, h.1, ih h.2]

theorem mapGet_upsert (m : List (List Nat × Nat)) (k : List Nat) (v : Nat)
    (h : Listener.mapContainsKey m k = true ∨ m.length < Listener.CAP) :
    Listener.mapGet (Listener.upsert_seq m k v) k = some v := by
  unfold Listener.upsert_seq Listener.mapInsert
  by_cases hc : Listener.mapContainsKey m k
  · simp [hc, mapGet_mapReplace m k v hc]
  · rcases h with h | h
    · exact absurd h (by simp [hc])
    · simp [hc, h, mapGet_append_new m k v (by simp [hc])]

theorem processReport_dup_queue (st : Listener.ScanState)
    (r : Listener.RuuviRaw) (t : Nat)
    (h : Listener.mapGet st.seqs r.mac = some r.measurement_seq) :
    (Listener.processReport st r t).queue =
      if st.queue.length = Listener.CAP then [] else st.queue := by
  unfold Listener.processReport
  have hnew : Listener.is_new_seq st.seqs r.mac r.measurement_seq = false := by
    unfold Listener.is_new_seq
    rw [h]
    simp
  rw [hnew]
  simp

/-! ## Concrete records used in scenario evaluations -/

/-- A MAC address whose first byte is `i`. -/
def macOf (i : Nat) : List Nat := [i, 0, 0, 0, 0, 0]

/-- A V2 record with the given MAC and measurement sequence (other fields
zero). -/
def v2Of (mac : List Nat) (seq : Nat) : Listener.RuuviRawV2 :=
  ⟨0, 0, 0, 0, 0, 0, 0, 0, seq, mac, none⟩

/-- A parsed record with MAC `macOf i` and sequence `seq`. -/
def recOf (i seq : Nat) : Listener.RuuviRaw := .V2 (v2Of (macOf i) seq)

/-- A full handoff queue (16 entries). -/
def fullQueue : List (Listener.RuuviRaw × Nat) :=
  List.replicate 16 (recOf 99 0, 0)

/-- A scanner state with one dedup entry `(macOf 1, 7)` and a full queue. -/
def dupState : Listener.ScanState := ⟨[(macOf 1, 7)], fullQueue⟩

/-- Spec scenario 4: 17 distinct (same MAC, increasing sequence) records,
pushed at instants `0, 1, …, 16`. -/
def overflowStream : List (Listener.RuuviRaw × Nat) :=
  (List.range 17).map fun i => (recOf 1 (i + 1), i)

/-- 16 records with distinct MACs (filling the dedup map), then the same
`(macOf 17, 1)` record twice. -/
def dedupOverflowStream : List (Listener.RuuviRaw × Nat) :=
  ((List.range 16).map fun i => (recOf (i + 1) 1, i)) ++
    [(recOf 17 1, 16), (recOf 17 1, 17)]

/-! ## Claims C2, C5, C9 -/

/-- Claim C2 counterexample: after 16 distinct MACs fill the 16-entry dedup
map, the upsert for `(macOf 17, 1)` fails (fail-open), so a second arrival of
the identical `(mac, seq)` pair is enqueued as well — the final queue holds
the same record twice, refuting "a second arrival of an identical (mac, seq)
pair never produces a downstream record". -/
theorem C2_second_arrival_enqueued :
    (Listener.processReports ⟨[], []⟩ dedupOverflowStream).queue =
      [(recOf 17 1, 16), (recOf 17 1, 17)] := by decide

/-- Claim C2 (amended): a report whose `(mac, seq)` equals the pair stored
for that MAC is dropped and never enqueued; and a second arrival of an
identical pair produces no downstream record provided the first arrival was
actually recorded — that is, its MAC was already present in the dedup map or
the map was not full. -/
theorem C2_duplicate_drop :
    (∀ (st : Listener.ScanState) (r : Listener.RuuviRaw) (t : Nat),
      Listener.mapGet st.seqs r.mac = some r.measurement_seq →
      (Listener.processReport st r t).queue =
        if st.queue.length = Listener.CAP then [] else st.queue) ∧
    (∀ (st : Listener.ScanState) (r : Listener.RuuviRaw) (t t' : Nat),
      Listener.mapContainsKey st.seqs r.mac = true ∨
        st.seqs.length < Listener.CAP →
      (Listener.processReport (Listener.processReport st r t) r t').queue =
        if (Listener.processReport st r t).queue.length = Listener.CAP then []
        else (Listener.processReport st r t).queue) := by
  constructor
  · intro st r t h
    exact processReport_dup_queue st r t h
  · intro st r t t' h
    apply processReport_dup_queue
    show Listener.mapGet (Listener.processReport st r t).seqs r.mac = _
    have : (Listener.processReport st r t).seqs =
        Listener.upsert_seq st.seqs r.mac r.measurement_seq := by
      unfold Listener.processReport
      rcases Listener.is_new_seq st.seqs r.mac r.measurement_seq <;> simp
    rw [this]
    exact mapGet_upsert st.seqs r.mac r.measurement_seq h

/-- Witness for C2: the duplicate `(macOf 1, 7)` against `dupState` is
dropped, and a twice-arriving record on an empty map is dropped the second
time. -/
theorem C2_duplicate_drop_witness :
    ((Listener.processReport dupState (recOf 1 7) 3).queue =
      if dupState.queue.length = Listener.CAP then [] else dupState.queue) ∧
    ((Listener.processReport
        (Listener.processReport ⟨[], []⟩ (recOf 2 5) 0) (recOf 2 5) 1).queue =
      if (Listener.processReport ⟨[], []⟩ (recOf 2 5) 0).queue.length =
          Listener.CAP then []
      else (Listener.processReport ⟨[], []⟩ (recOf 2 5) 0).queue) :=
  ⟨C2_duplicate_drop.1 dupState (recOf 1 7) 3 (by decide),
   C2_duplicate_drop.2 ⟨[], []⟩ (recOf 2 5) 0 1 (Or.inr (by decide))⟩

/-- Claim C5: when the queue is full and the parsed record is not a
duplicate, the producer clears the queue and enqueues it (the queue then
holds exactly the new record); and in spec scenario 4 — 17 distinct records
pushed while the consumer is blocked — the queue afterwards holds only the
17th record. -/
theorem C5_overflow_clear_enqueue :
    (∀ (st : Listener.ScanState) (r : Listener.RuuviRaw) (t : Nat),
      st.queue.length = Listener.CAP →
      Listener.is_new_seq st.seqs r.mac r.measurement_seq = true →
      (Listener.processReport st r t).queue = [(r, t)]) ∧
    (Listener.processReports ⟨[], []⟩ overflowStream).queue =
      [(recOf 1 17, 16)] := by
  constructor
  · intro st r t hfull hnew
    unfold Listener.processReport
    rw [hnew, hfull]
    simp [Listener.CAP]
  · decide

/-- Witness for C5: a fresh record against the full-queue state `dupState`
leaves exactly that record in the queue. -/
theorem C5_overflow_clear_enqueue_witness :
    (Listener.processReport dupState (recOf 2 5) 4).queue = [(recOf 2 5, 4)] :=
  C5_overflow_clear_enqueue.1 dupState (recOf 2 5) 4 (by decide) (by decide)

/-- Claim C9: if the queue is full when a report parses, it is cleared before
the duplicate check; a duplicate is then dropped without replacement, leaving
the queue empty. -/
theorem C9_full_dup_clears :
    ∀ (st : Listener.ScanState) (r : Listener.RuuviRaw) (t : Nat),
      st.queue.length = Listener.CAP →
      Listener.mapGet st.seqs r.mac = some r.measurement_seq →
      (Listener.processReport st r t).queue = [] := by
  intro st r t hfull hdup
  rw [processReport_dup_queue st r t hdup, hfull]
  simp

/-- Witness for C9: the duplicate `(macOf 1, 7)` against the full-queue state
`dupState` empties the queue. -/
theorem C9_full_dup_clears_witness :
    (Listener.processReport dupState (recOf 1 7) 3).queue = [] :=
  C9_full_dup_clears dupState (recOf 1 7) 3 (by decide) (by decide)

/-! ## Claim C6: the advertisement parser -/

/-- Claim C6: with format tag `0x05`, every payload of length ≥ 24 parses to
a V2 record whose MAC is `P[18..24]`, whose raw temperature is
`be_i16(P[1..3])`, and whose remaining multi-byte fields are big-endian at
the documented offsets; shorter payloads fail with `TooShort`; any tag other
than `0x05` and `0xE1` fails with `UnknownFormat(tag)`. -/
theorem C6_parse_v2 :
    (∀ P : List Nat, 24 ≤ P.length →
      ∃ r : Listener.RuuviRawV2,
        Listener.parse_ruuvi_raw 0x05 P = .ok (.V2 r) ∧
        r.mac = (P.drop 18).take 6 ∧
        r.temp = beI16 (P.getD 1 0) (P.getD 2 0) ∧
        r.humidity = be16 (P.getD 3 0) (P.getD 4 0) ∧
        r.pressure = be16 (P.getD 5 0) (P.getD 6 0) ∧
        r.acc_x = beI16 (P.getD 7 0) (P.getD 8 0) ∧
        r.acc_y = beI16 (P.getD 9 0) (P.getD 10 0) ∧
        r.acc_z = beI16 (P.getD 11 0) (P.getD 12 0) ∧
        r.power_info = be16 (P.getD 13 0) (P.getD 14 0) ∧
        r.movement_counter = P.getD 15 0 ∧
        r.measurement_seq = be16 (P.getD 16 0) (P.getD 17 0)) ∧
    (∀ P : List Nat, P.length < 24 →
      Listener.parse_ruuvi_raw 0x05 P = .error .TooShort) ∧
    (∀ (tag : Nat) (P : List Nat), tag ≠ 0x05 → tag ≠ 0xE1 →
      Listener.parse_ruuvi_raw tag P = .error (.UnknownFormat tag)) := by
  refine ⟨?_, ?_, ?_⟩
  · intro P hlen
    have hp : Listener.parse_ruuvi_raw 0x05 P = .ok (.V2
        ⟨beI16 (P.getD 1 0) (P.getD 2 0), be16 (P.getD 3 0) (P.getD 4 0),
         be16 (P.getD 5 0) (P.getD 6 0), beI16 (P.getD 7 0) (P.getD 8 0),
         beI16 (P.getD 9 0) (P.getD 10 0), beI16 (P.getD 11 0) (P.getD 12 0),
         be16 (P.getD 13 0) (P.getD 14 0), P.getD 15 0,
         be16 (P.getD 16 0) (P.getD 17 0),
         [P.getD 18 0, P.getD 19 0, P.getD 20 0, P.getD 21 0, P.getD 22 0,
          P.getD 23 0], none⟩) := by
      unfold Listener.parse_ruuvi_raw
      have hnotshort : ¬ P.length < 24 := by omega
      simp [hnotshort]
    refine ⟨_, hp, ?_, rfl, rfl, rfl, rfl, rfl, rfl, rfl, rfl, rfl⟩
    show [P.getD 18 0, P.getD 19 0, P.getD 20 0, P.getD 21 0,
          P.getD 22 0, P.getD 23 0] = (P.drop 18).take 6
    apply List.ext_getElem
    · simp
      omega
    · intro i h1 h2
      have h6 : i < 6 := by simpa using h1
      have hget : ∀ (j : Nat) (hj : j < P.length), P[j]?.getD 0 = P[j] := by
        intro j hj
        rw [List.getElem?_eq_getElem hj]
        rfl
      interval_cases i <;>
        simp [List.getElem_take, List.getElem_drop] <;>
        exact hget _ (by omega)
  · intro P hshort
    simp [Listener.parse_ruuvi_raw]
    omega
  · intro tag P h5 hE1
    simp [Listener.parse_ruuvi_raw, h5, hE1]

set_option maxRecDepth 4096 in
/-- Witness for C6: spec scenario 1's 24-byte payload parses, the empty
payload is `TooShort`, and tag `0x06` is `UnknownFormat`. -/
theorem C6_parse_v2_witness :
    (∃ r : Listener.RuuviRawV2,
      Listener.parse_ruuvi_raw 0x05
        [0x05, 0x12, 0xFC, 0x94, 0x11, 0x5B, 0x01, 0x00, 0x00, 0x00, 0x00,
         0x00, 0x00, 0x0B, 0xB8, 0x24, 0x00, 0x00, 0xCB, 0xB8, 0x33, 0x44,
         0x55, 0x66] = .ok (.V2 r) ∧
      r.mac = (([0x05, 0x12, 0xFC, 0x94, 0x11, 0x5B, 0x01, 0x00, 0x00, 0x00,
                 0x00, 0x00, 0x00, 0x0B, 0xB8, 0x24, 0x00, 0x00, 0xCB, 0xB8,
                 0x33, 0x44, 0x55, 0x66] : List Nat).drop 18).take 6 ∧
      r.temp = beI16 0x12 0xFC ∧
      r.humidity = be16 0x94 0x11 ∧
      r.pressure = be16 0x5B 0x01 ∧
      r.acc_x = beI16 0x00 0x00 ∧
      r.acc_y = beI16 0x00 0x00 ∧
      r.acc_z = beI16 0x00 0x00 ∧
      r.power_info = be16 0x0B 0xB8 ∧
      r.movement_counter = 0x24 ∧
      r.measurement_seq = be16 0x00 0x00) ∧
    Listener.parse_ruuvi_raw 0x05 [] = .error .TooShort ∧
    Listener.parse_ruuvi_raw 0x06 [] = .error (.UnknownFormat 0x06) := by
  refine ⟨?_, ?_, ?_⟩
  · have h := C6_parse_v2.1
      [0x05, 0x12, 0xFC, 0x94, 0x11, 0x5B, 0x01, 0x00, 0x00, 0x00, 0x00,
       0x00, 0x00, 0x0B, 0xB8, 0x24, 0x00, 0x00, 0xCB, 0xB8, 0x33, 0x44,
       0x55, 0x66] (by decide)
    obtain ⟨r, hp, hmac, hrest⟩ := h
    exact ⟨r, hp, hmac, hrest⟩
  · exact C6_parse_v2.2.1 [] (by decide)
  · exact C6_parse_v2.2.2 0x06 [] (by decide) (by decide)

/-! ## Claim C7: framing round trip -/

/-- Claim C7 counterexample: a 1025-byte payload frames successfully
(1025 ≤ 65535) but the listener's `recv` reads into a `[u8; 1024]` buffer,
so `&mut rx_buffer[..1025]` panics and the round trip fails. -/
theorem C7_buffer_overflow_frame :
    (sendFrame (List.replicate 1025 7)).bind listenerRecv = none ∧
    sendFrame (List.replicate 1025 7) ≠ none := by
  have key : ∀ b : List Nat, 1024 < b.length → b.length ≤ 65535 →
      (sendFrame b).bind (recvFrame 1024) = none ∧ sendFrame b ≠ none := by
    intro b h1 h2
    have hsend : sendFrame b =
        some ([b.length / 256, b.length % 256] ++ b) := by
      simp [sendFrame, h2]
    rw [hsend]
    refine ⟨?_, by simp⟩
    show recvFrame 1024 (b.length / 256 :: b.length % 256 :: b) = none
    unfold recvFrame
    have hbe : be16 (b.length / 256) (b.length % 256) = b.length := by
      unfold be16
      omega
    simp only [hbe]
    rw [if_pos h1]
  have hlen : (List.replicate 1025 7).length = 1025 := by
    rw [List.length_replicate]
  exact key (List.replicate 1025 7) (by rw [hlen]; norm_num)
    (by rw [hlen]; norm_num)

/-- Claim C7 (amended): the round trip `recv (send b ++ rest) = (b, rest)`
holds for every payload that fits the receive buffer — up to 1024 bytes for
the listener and 4096 bytes for the gateway — not for every payload up to
65535 bytes. -/
theorem C7_frame_roundtrip :
    ∀ b rest : List Nat,
      (b.length ≤ 1024 →
        (sendFrame b).bind (fun f => listenerRecv (f ++ rest)) =
          some (b, rest)) ∧
      (b.length ≤ 4096 →
        (sendFrame b).bind (fun f => gatewayRecv (f ++ rest)) =
          some (b, rest)) := by
  have key : ∀ (cap : Nat) (b rest : List Nat), b.length ≤ cap →
      cap ≤ 65535 →
      (sendFrame b).bind (fun f => recvFrame cap (f ++ rest)) =
        some (b, rest) := by
    intro cap b rest hcap hcap2
    have hle : b.length ≤ 65535 := le_trans hcap hcap2
    have hsend : sendFrame b =
        some ([b.length / 256, b.length % 256] ++ b) := by
      simp [sendFrame, hle]
    rw [hsend]
    show recvFrame cap
      ((([b.length / 256, b.length % 256] ++ b) ++ rest)) = some (b, rest)
    have hbe : be16 (b.length / 256) (b.length % 256) = b.length := by
      unfold be16
      omega
    simp only [List.cons_append, List.nil_append, recvFrame, hbe]
    have h1 : ¬ cap < b.length := by omega
    have h2 : ¬ (b ++ rest).length < b.length := by simp
    simp [h1, h2, List.take_left, List.drop_left]
  intro b rest
  exact ⟨fun h => key 1024 b rest h (by omega), fun h => key 4096 b rest h (by omega)⟩

/-- Witness for C7: round trip of `[1, 2, 3]` with trailing bytes `[9]` on
both sides. -/
theorem C7_frame_roundtrip_witness :
    ((sendFrame [1, 2, 3]).bind (fun f => listenerRecv (f ++ [9])) =
      some ([1, 2, 3], [9])) ∧
    ((sendFrame [1, 2, 3]).bind (fun f => gatewayRecv (f ++ [9])) =
      some ([1, 2, 3], [9])) :=
  ⟨(C7_frame_roundtrip [1, 2, 3] [9]).1 (by decide),
   (C7_frame_roundtrip [1, 2, 3] [9]).2 (by decide)⟩

/-! ## Claim C8: reconnect backoff -/

/-- Claim C8 counterexample: two connect failures raise the backoff to
2000 ms; the following successful handshake (and time sync) does not reset
it, so the next failure sleeps 2000 ms — the claim predicts 500 ms. -/
theorem C8_handshake_no_reset :
    backoffTrace 500 [.connectFail, .connectFail, .connectOk, .handshakeOk,
      .syncOk, .sendFail] = (4000, [500, 1000, 2000]) ∧
    (500 : Nat) ≠ 2000 := by decide

/-- Claim C8 (amended): the backoff starts at 500 ms; each connect,
handshake or send failure sleeps the current backoff and doubles it, capped
at 30 s (three consecutive connect failures sleep 500, 1000, 2000 ms); a
successful frame send resets it to 500 ms; a successful handshake leaves it
unchanged (it does not reset the next failure's backoff). -/
theorem C8_backoff :
    BASE_BACKOFF_MS = 500 ∧
    (∀ b, backoffStep b .connectFail = (min (b * 2) MAX_BACKOFF_MS, some b)) ∧
    (∀ b, backoffStep b .handshakeFail =
      (min (b * 2) MAX_BACKOFF_MS, some b)) ∧
    (∀ b, backoffStep b .sendFail = (min (b * 2) MAX_BACKOFF_MS, some b)) ∧
    (backoffTrace BASE_BACKOFF_MS
      [.connectFail, .connectFail, .connectFail]).2 = [500, 1000, 2000] ∧
    (∀ b, backoffStep b .sendOk = (BASE_BACKOFF_MS, none)) ∧
    (∀ b, backoffStep b .handshakeOk = (b, none)) :=
  ⟨rfl, fun _ => rfl, fun _ => rfl, fun _ => rfl, by decide,
   fun _ => rfl, fun _ => rfl⟩

/-! ## Claim C1: frames after transport establishment -/

/-- Claim C1 counterexample: the very first frame the listener writes after
`into_transport_mode` — the time-sync request — is `send(socket, &[])`, an
empty plaintext frame that never passes through the sending cipher state, so
not every post-handshake frame is a transport ciphertext. -/
theorem C1_sync_request_not_ciphertext :
    (listenerPostHandshakeSends []).all SentFrame.isTransportCiphertext =
      false := by decide

/-- Claim C1 (amended): after transport establishment the listener's first
frame is the plaintext empty time-sync request, and every subsequent frame
is a transport ciphertext produced by the sending cipher state (whose output
is never empty: the AEAD adds a 16-byte tag). -/
theorem C1_post_handshake_frames :
    (∀ records : List (List Nat),
      (listenerPostHandshakeSends records).head? =
        some (SentFrame.plain []) ∧
      (listenerPostHandshakeSends records).tail.all
        SentFrame.isTransportCiphertext = true) ∧
    (∀ n, 16 ≤ noiseTransportCiphertextLen n) := by
  constructor
  · intro records
    constructor
    · rfl
    · show (records.map SentFrame.ciphertext).all
        SentFrame.isTransportCiphertext = true
      rw [List.all_eq_true]
      intro f hf
      obtain ⟨pt, _, rfl⟩ := List.mem_map.1 hf
      rfl
  · intro n
    simp [noiseTransportCiphertextLen]

/-! ## Claim C4: time-sync anchor and timestamp stamping -/

/-- Claim C4 counterexample: with anchor `(ref_local, ref_wall) = (100, 0)`
and a sample captured at local time 50 ms, the code computes
`ref_wall - 50` in wrapping `u64` arithmetic, yielding `2^64 - 50`, while
the claim's saturating-at-zero formula yields `0`. -/
theorem C4_wrapping_not_saturating :
    stampTimestamp 100 0 50 = U64 - 50 ∧
    specStampSaturating 100 0 50 = 0 ∧
    U64 - 50 ≠ 0 := by decide

/-- Claim C4 (amended): the anchor is `ref_local = t1 + (t2 − t1)/2`,
`ref_wall = T_srv + (t2 − t1)/2` (wrapping `u64`); a dequeued sample at
local time `t` is stamped `ref_wall + (t − ref_local)` in signed
milliseconds computed with wrapping `u64` arithmetic — the value agrees with
the signed formula whenever that is in `[0, 2^64)`, and it wraps instead of
saturating at zero.  The spec's example holds: `t1 = 100`,
`T_srv = 1_700_000_000_000`, `t2 = 140` gives anchor
`(120, 1_700_000_000_020)` and a sample at 220 ms is stamped
`1_700_000_000_120`. -/
theorem C4_anchor_and_stamp :
    (∀ t1 t2 tsrv : Nat, tsrv + (t2 - t1) / 2 < U64 →
      syncAnchor t1 t2 tsrv = (t1 + (t2 - t1) / 2, tsrv + (t2 - t1) / 2)) ∧
    (∀ refLocal refWall t : Nat, refWall < U64 →
      0 ≤ (refWall : Int) + ((t : Int) - (refLocal : Int)) →
      (refWall : Int) + ((t : Int) - (refLocal : Int)) < (U64 : Int) →
      stampTimestamp refLocal refWall t =
        specStampSaturating refLocal refWall t) ∧
    (syncAnchor 100 140 1700000000000 = (120, 1700000000020) ∧
      stampTimestamp 120 1700000000020 220 = 1700000000120) := by
  refine ⟨?_, ?_, by decide⟩
  · intro t1 t2 tsrv h
    simp [syncAnchor, Nat.mod_eq_of_lt h]
  · intro refLocal refWall t hwall h0 hlt
    unfold stampTimestamp specStampSaturating
    by_cases hbr : refLocal ≤ t
    · rw [if_pos hbr]
      have hval : (refWall : Int) + ((t : Int) - (refLocal : Int)) =
          ((refWall + (t - refLocal) : Nat) : Int) := by
        push_cast
        omega
      rw [hval] at hlt ⊢
      have hlt2 : refWall + (t - refLocal) < U64 := by exact_mod_cast hlt
      rw [Nat.mod_eq_of_lt hlt2]
      omega
    · rw [if_neg hbr]
      push_neg at hbr
      have hd : refLocal - t ≤ refWall := by omega
      have hmod : (refLocal - t) % U64 = refLocal - t :=
        Nat.mod_eq_of_lt (by omega)
      rw [hmod]
      have : (refWall + U64 - (refLocal - t)) % U64 =
          refWall - (refLocal - t) := by
        rw [show refWall + U64 - (refLocal - t) =
          (refWall - (refLocal - t)) + U64 by omega]
        rw [Nat.add_mod_right]
        exact Nat.mod_eq_of_lt (by omega)
      rw [this]
      omega

/-- Witness for C4: the spec's example values discharge every hypothesis. -/
theorem C4_anchor_and_stamp_witness :
    syncAnchor 100 140 1700000000000 = (120, 1700000000020) ∧
    stampTimestamp 120 1700000000020 220 =
      specStampSaturating 120 1700000000020 220 :=
  ⟨C4_anchor_and_stamp.1 100 140 1700000000000 (by decide),
   C4_anchor_and_stamp.2.1 120 1700000000020 220 (by decide) (by decide)
     (by decide)⟩

/-! ## Claim C3: serialization formats -/

/-- A well-formed V2 record of the shared schema with humidity 100 (all other
fields zero or minimal). -/
def lowV2 : Schema.RuuviRawV2 :=
  ⟨0, 100, 0, 0, 0, 0, 0, 0, 0, [1, 2, 3, 4, 5, 6], none, 0⟩

/-- The same record with humidity 300 — a value whose postcard varint takes
two bytes instead of one. -/
def highV2 : Schema.RuuviRawV2 :=
  ⟨0, 300, 0, 0, 0, 0, 0, 0, 0, [1, 2, 3, 4, 5, 6], none, 0⟩

/-- A sample listener-side V2 record. -/
def sampleListenerV2 : Listener.RuuviRawV2 :=
  ⟨0, 0, 0, 0, 0, 0, 0, 0, 0, [1, 2, 3, 4, 5, 6], none⟩

/-- Claim C3 counterexample: (i) the encoding the gateway decodes does use
variable-length integers — two records differing only in the 16-bit humidity
field (100 vs 300) have postcard encodings of different lengths; (ii) the
payload the listener's sender actually encrypts (the format byte prepended
to the postcard bytes of the `to_bytes` array, modelled from the spec) is
rejected by the gateway's `postcard::from_bytes::<RuuviRaw>`, so that
deserialization is not a left inverse of the listener's serialization. -/
theorem C3_varint_encoding :
    (Postcard.serRuuviRaw (.V2 lowV2)).length ≠
      (Postcard.serRuuviRaw (.V2 highV2)).length ∧
    Postcard.fromBytesRuuviRaw
      (listenerStreamPayload (toBytesSpecV2 sampleListenerV2)) = none := by
  have h0 : Postcard.varintEnc 0 = [0] :=
    Postcard.varintEnc_small 0 (by norm_num)
  have h100 : Postcard.varintEnc 100 = [100] :=
    Postcard.varintEnc_small 100 (by norm_num)
  have h300 : Postcard.varintEnc 300 = [172, 2] := by
    rw [Postcard.varintEnc_large 300 (by norm_num)]
    norm_num
    rw [Postcard.varintEnc_small 2 (by norm_num)]
  constructor
  · simp [Postcard.serRuuviRaw, Postcard.serV2, Postcard.serI16,
      Postcard.zigzag, Postcard.serU8, Postcard.serOptU64, Postcard.serI8,
      lowV2, highV2, h0, h100, h300]
  · have htag : listenerStreamPayload (toBytesSpecV2 sampleListenerV2) =
        5 :: toBytesSpecV2 sampleListenerV2 := rfl
    rw [htag]
    unfold Postcard.fromBytesRuuviRaw
    rw [Postcard.deserRuuviRaw_tag5]
    rfl

/-- Claim C3 (amended): for every well-formed record of the shared
`ruuvi_schema::RuuviRaw` type, the gateway's `postcard::from_bytes` is a left
inverse of postcard serialization — but that encoding uses postcard's
variable-length integers, not the fixed-width big-endian layout of §3; and
any payload whose first byte is a preserved format tag (`0x05` or `0xE1`),
as produced by the listener's payload construction, is rejected by the
gateway's deserializer. -/
theorem C3_postcard_roundtrip :
    (∀ r : Schema.RuuviRaw, Schema.WfRaw r →
      Postcard.fromBytesRuuviRaw (Postcard.serRuuviRaw r) = some r) ∧
    (∀ inner : List Nat, inner.headD 0 = 5 ∨ inner.headD 0 = 225 →
      Postcard.fromBytesRuuviRaw (listenerStreamPayload inner) = none) := by
  constructor
  · intro r h
    unfold Postcard.fromBytesRuuviRaw
    have hrt := Postcard.deserRuuviRaw_ser r h []
    rw [List.append_nil] at hrt
    rw [hrt]
    rfl
  · intro inner h
    have hpay : listenerStreamPayload inner =
        inner.headD 0 :: inner := rfl
    unfold Postcard.fromBytesRuuviRaw
    rcases h with h | h <;> rw [hpay, h]
    · rw [Postcard.deserRuuviRaw_tag5]
      rfl
    · rw [Postcard.deserRuuviRaw_tag225]
      rfl

/-- Witness for C3: the round trip at the concrete record `lowV2`, and
rejection of a concrete payload starting with `0x05`. -/
theorem C3_postcard_roundtrip_witness :
    Postcard.fromBytesRuuviRaw (Postcard.serRuuviRaw (.V2 lowV2)) =
      some (.V2 lowV2) ∧
    Postcard.fromBytesRuuviRaw
      (listenerStreamPayload (toBytesSpecV2 sampleListenerV2)) = none :=
  ⟨C3_postcard_roundtrip.1 (.V2 lowV2) (by decide),
   C3_postcard_roundtrip.2 (toBytesSpecV2 sampleListenerV2)
     (Or.inl (by decide))⟩

/-! ## Claim C10: missing timestamps become the Unix epoch -/

/-- Claim C10: a record arriving with `timestamp = None` is stamped
`from_timestamp_millis(0)`, which succeeds, so `recorded_at` is the Unix
epoch; the current-time fallback branch is not taken for a missing timestamp
and is reachable exactly for out-of-range values — for both variants. -/
theorem C10_missing_timestamp_epoch :
    (∀ fb : Int, Gateway.recordedAtV2 none fb = 0 ∧
      Gateway.recordedAtE1 none fb = 0) ∧
    Gateway.fallbackTakenV2 none = false ∧
    Gateway.fallbackTakenE1 none = false ∧
    (∀ v : Nat, Gateway.fallbackTakenV2 (some v) =
      decide (Gateway.u64AsI64 v < Gateway.chronoMinMs ∨
        Gateway.chronoMaxMs < Gateway.u64AsI64 v)) ∧
    (∀ v : Nat, Gateway.fallbackTakenE1 (some v) =
      Gateway.fallbackTakenV2 (some v)) := by
  refine ⟨?_, by decide, by decide, ?_, fun v => rfl⟩
  · intro fb
    constructor <;> rfl
  · intro v
    unfold Gateway.fallbackTakenV2 Gateway.fromTimestampMillis
    simp only [Option.getD_some]
    by_cases h : Gateway.chronoMinMs ≤ Gateway.u64AsI64 v ∧
        Gateway.u64AsI64 v ≤ Gateway.chronoMaxMs
    · rw [if_pos h]
      have hno : ¬ (Gateway.u64AsI64 v < Gateway.chronoMinMs ∨
          Gateway.chronoMaxMs < Gateway.u64AsI64 v) := by omega
      simp [hno]
    · rw [if_neg h]
      have hyes : Gateway.u64AsI64 v < Gateway.chronoMinMs ∨
          Gateway.chronoMaxMs < Gateway.u64AsI64 v := by omega
      simp [hyes]

end Ruuvi
